import Mathlib

/-!
Verification of the SMS-System message lifecycle synchronization pipeline.

The definitions below are shallow embeddings of the repository's source
code:

* `Message`, `mkey` — the client message entity and its correlation key
  (`frontend/lib/api.ts`, `Message`; key computed as
  `m.correlationId || m.id` throughout `MessagingInterface.tsx`).
* `surviveFilter`, `seedPersisted`, `addOptimistic`, `mergeMessages`,
  `loadMessagesUpdate` — the client reconciliation merge
  (`frontend/components/MessagingInterface.tsx`, `loadMessages`).
* `pushUpdate`, `applyPushEvent` — the push-channel status handler
  (`MessagingInterface.tsx`, `setupWebSocket`).
* `pollDelays`, `pollRun`, `pollForMessage` — the delivery poller
  (`MessagingInterface.tsx`, `handleSend` / `pollForMessage`).
* `handleSendTimers` — the per-recipient poll-timer replacement
  (`MessagingInterface.tsx`, `handleSend`).
* `getUserMessagesHandler`, `deleteUserMessagesHandler`,
  `getConversationsHandler` — the store HTTP handlers
  (`sms-store/internal/httpapi/handlers.go`).
* `clientGetUserMessages` — the store API client
  (`frontend/lib/api.ts`, `storeApiClient.getUserMessages`).
* `mergeEvent` — the event-ingestion merge policy (modelled from the
  spec; the Kafka consumer and Mongo-backed message store are not in
  the source tree).
* `sendEntryPoint` — the send entry point response (modelled from the
  spec and the frontend `SendSmsResponse` type; the sender HTTP
  controller is not in the source tree).

Client timestamps are modelled as integer milliseconds (the component
layer converts ISO strings with `new Date(x).getTime()`); statuses are
plain strings, as in the TypeScript and Go sources.
-/

namespace SMSSystem

/-- The client message entity (`frontend/lib/api.ts`, interface `Message`),
with `createdAt` as epoch milliseconds. `correlationId` is optional. -/
structure Message where
  id : String
  correlationId : Option String
  phoneNumber : String
  text : String
  status : String
  createdAt : Int
deriving Repr, DecidableEq

/-- The correlation key `m.correlationId || m.id` with JavaScript
truthiness: an absent or empty `correlationId` falls back to `id`. -/
def mkey (m : Message) : String :=
  match m.correlationId with
  | some c => if c = "" then m.id else c
  | none => m.id

/-- Freshness threshold of the reconciliation merge, in milliseconds
(`MessagingInterface.tsx` line 181: `messageAge > 2500`). -/
def STALE_MS : Int := 2500

/-- `new Set(data.map(m => m.correlationId || m.id).filter(Boolean))`:
the correlation keys of the persisted list, empty keys removed. -/
def persistedKeys (data : List Message) : List String :=
  (data.map mkey).filter (fun k => k ≠ "")

/-- `new Set(data.map(m => m.id))`. -/
def persistedIds (data : List Message) : List String :=
  data.map (fun m => m.id)

/-- The optimistic-message filter of `loadMessages`: drop entries whose
correlation key is already persisted, whose id is already persisted, or
whose age exceeds `STALE_MS`. -/
def surviveFilter (now : Int) (data : List Message) (m : Message) : Bool :=
  if mkey m ≠ "" ∧ mkey m ∈ persistedKeys data then false
  else if m.id ∈ persistedIds data then false
  else if now - m.createdAt > STALE_MS then false
  else true

/-- `Map.set`: replace the value at an existing key in place, else append
(JavaScript `Map` keeps the original insertion position on update). -/
def alSet (l : List (String × Message)) (k : String) (v : Message) :
    List (String × Message) :=
  match l with
  | [] => [(k, v)]
  | (k', v') :: t => if k' = k then (k', v) :: t else (k', v') :: alSet t k v

/-- `Map.has`. -/
def alHas (l : List (String × Message)) (k : String) : Bool :=
  l.any (fun p => p.1 = k)

/-- `data.forEach(msg => mergedMap.set(msg.correlationId || msg.id, msg))`:
seed the merge map with all persisted entries. -/
def seedPersisted (data : List Message) : List (String × Message) :=
  data.foldl (fun acc m => alSet acc (mkey m) m) []

/-- `optimisticMessages.forEach(...)`: add a surviving optimistic entry
only when its key is not already present. -/
def addOptimistic (acc : List (String × Message)) (opts : List Message) :
    List (String × Message) :=
  opts.foldl (fun acc m => if alHas acc (mkey m) then acc else acc ++ [(mkey m, m)]) acc

/-- Insert into a list sorted ascending by `createdAt`. -/
def insertByCreated (m : Message) : List Message → List Message
  | [] => [m]
  | x :: xs => if m.createdAt ≤ x.createdAt then m :: x :: xs else x :: insertByCreated m xs

/-- `.sort((a, b) => new Date(a.createdAt).getTime() - new Date(b.createdAt).getTime())`. -/
def sortByCreated (l : List Message) : List Message :=
  l.foldr insertByCreated []

/-- The merge map of `loadMessages`: all persisted entries, then the
surviving optimistic entries for keys not already present. -/
def mergedAL (now : Int) (data current : List Message) : List (String × Message) :=
  addOptimistic (seedPersisted data) (current.filter (surviveFilter now data))

/-- The merge branch of `loadMessages` (`MessagingInterface.tsx` lines
157–232): filter the optimistic entries, seed a map with the persisted
entries, add surviving optimistic entries for absent keys, and sort the
values by `createdAt`. -/
def mergeMessages (now : Int) (data current : List Message) : List Message :=
  sortByCreated ((mergedAL now data current).map Prod.snd)

/-- The state update of `loadMessages` for one recipient: the merge
branch runs only with `preserveOptimistic` and a nonempty local list;
otherwise the persisted list is sorted and taken as-is. -/
def loadMessagesUpdate (now : Int) (preserveOptimistic : Bool)
    (data current : List Message) : List Message :=
  if preserveOptimistic && !current.isEmpty then mergeMessages now data current
  else sortByCreated data

/-! ### Push-channel status handler (`setupWebSocket`) -/

/-- Payload delivered by `subscribeToSmsStatus`
(`frontend/lib/socket-io-client`): `{requestId, status}`. -/
structure PushEvent where
  requestId : String
  status : String
deriving Repr, DecidableEq

/-- The per-message update applied by the `setupWebSocket` callback
(`MessagingInterface.tsx` lines 270–278): on a correlation-key or id
match, overwrite the status with the event's status. -/
def pushUpdate (e : PushEvent) (msg : Message) : Message :=
  if mkey msg = e.requestId ∨ msg.id = e.requestId then
    { msg with status := e.status }
  else msg

/-- `currentMessages.map(...)` in the `setupWebSocket` callback. -/
def applyPushEvent (msgs : List Message) (e : PushEvent) : List Message :=
  msgs.map (pushUpdate e)

/-! ### Delivery poller (`handleSend` / `pollForMessage`) -/

/-- `const pollDelays = [300, 600, 800, 1200]`. -/
def pollDelays : List Nat := [300, 600, 800, 1200]

/-- Observable outcome of one poll sequence: how many attempts actually
ran, the persisted message that replaced the optimistic entry (if any),
and whether the exhausted-polling fallback `loadMessages` refresh ran. -/
structure PollOutcome where
  attemptsRun : Nat
  replaced : Option Message
  fallbackRefresh : Bool
deriving Repr, DecidableEq

/-- One poll sequence. `fetch attempt` is the result of that attempt's
`storeApiClient.getUserMessages` call (`none` models a thrown error).
`remaining` counts the attempts still schedulable, so that
`remaining ≠ 0` is the source's guard `attempt < pollDelays.length - 1`;
the top-level entry `pollForMessage` starts with
`remaining = pollDelays.length - 1` and `attempt = 0`. On a successful
fetch containing a message whose correlation key equals `cid`, polling
stops with that message; on exhaustion after a successful fetch the
unconditional `loadMessages` refresh runs; on exhaustion after a failed
fetch the catch branch schedules nothing and no refresh runs. -/
def pollRun (cid : String) (fetch : Nat → Option (List Message)) :
    Nat → Nat → PollOutcome
  | remaining, attempt =>
    match fetch attempt with
    | some data =>
      match data.find? (fun m => mkey m = cid) with
      | some p => ⟨attempt + 1, some p, false⟩
      | none =>
        match remaining with
        | r + 1 => pollRun cid fetch r (attempt + 1)
        | 0 => ⟨attempt + 1, none, true⟩
    | none =>
      match remaining with
      | r + 1 => pollRun cid fetch r (attempt + 1)
      | 0 => ⟨attempt + 1, none, false⟩

/-- The whole poll sequence started by `handleSend`: first attempt at
index 0, further attempts while `attempt < pollDelays.length - 1`. -/
def pollForMessage (cid : String) (fetch : Nat → Option (List Message)) : PollOutcome :=
  pollRun cid fetch (pollDelays.length - 1) 0

/-- Whether attempt `i` would find the persisted counterpart: the fetch
succeeded and some returned message has correlation key `cid`. -/
def matchAt (cid : String) (fetch : Nat → Option (List Message)) (i : Nat) :
    Option Message :=
  (fetch i).bind (fun data => data.find? (fun m => mkey m = cid))

/-- The in-place replacement performed when a poll attempt finds the
persisted message (`MessagingInterface.tsx` lines 366–381): every local
entry whose correlation key equals the send's correlation id is replaced
by the persisted message. -/
def replaceByKey (msgs : List Message) (cid : String) (p : Message) : List Message :=
  msgs.map (fun m => if mkey m = cid then p else m)

/-! ### Per-recipient poll-timer replacement (`handleSend` lines 340–422) -/

/-- `retryTimersRef.current`: pending poll timers keyed by recipient. -/
def TimerMap : Type := String → List Nat

/-- `retryTimersRef.current[selectedPhoneNumber].forEach(clearTimeout)`
followed by resetting the entry to `[]`: returns the new map and the
list of timers that were cancelled. -/
def clearRecipientTimers (t : TimerMap) (r : String) : TimerMap × List Nat :=
  ((fun r' => if r' = r then [] else t r'), t r)

/-- `retryTimersRef.current[selectedPhoneNumber].push(timer)`. -/
def pushTimer (t : TimerMap) (r : String) (id : Nat) : TimerMap :=
  fun r' => if r' = r then t r' ++ [id] else t r'

/-- The timer effect of `handleSend` on a send to recipient `r`: clear
every pending timer for `r`, then register the first poll timer. -/
def handleSendTimers (t : TimerMap) (r : String) (firstTimer : Nat) :
    TimerMap × List Nat :=
  let cleared := clearRecipientTimers t r
  (pushTimer cleared.1 r firstTimer, cleared.2)

/-! ### Store HTTP handlers (`sms-store/internal/httpapi/handlers.go`) -/

/-- `strings.HasPrefix` over the character sequence of the string. -/
def goHasPre (s p : String) : Bool :=
  p.data.isPrefixOf s.data

/-- `strings.HasSuffix` over the character sequence of the string. -/
def goHasSuf (s p : String) : Bool :=
  p.data.isSuffixOf s.data

/-- `strings.TrimPrefix`: drop `p` from the front of `s` when present. -/
def goTrimPre (s p : String) : String :=
  if goHasPre s p then ⟨s.data.drop p.data.length⟩ else s

/-- `strings.TrimSuffix`: drop `p` from the end of `s` when present. -/
def goTrimSuf (s p : String) : String :=
  if goHasSuf s p then ⟨s.data.take (s.data.length - p.data.length)⟩ else s

/-- `strings.TrimSpace`: drop whitespace from both ends. -/
def goTrimSpace (s : String) : String :=
  ⟨((s.data.dropWhile Char.isWhitespace).reverse.dropWhile Char.isWhitespace).reverse⟩

/-- `strings.Contains(s, "/")` for a single-character needle. -/
def strContains (s : String) (c : Char) : Bool :=
  s.data.contains c

/-- An HTTP response body as written by the handlers. -/
inductive Body where
  | msgs (l : List Message)
  | phones (l : List String)
  | errorBody (code message : String)
  | deleteResult (message : String) (deletedCount : Nat) (phoneNumber : String)
deriving Repr, DecidableEq

/-- An HTTP response: status code plus JSON body. -/
structure Response where
  status : Nat
  body : Body
deriving Repr, DecidableEq

/-- `writeError(w, status, code, message)`. -/
def writeError (status : Nat) (code message : String) : Response :=
  ⟨status, Body.errorBody code message⟩

/-- Recipient extraction shared by `GetUserMessages` and
`DeleteUserMessages`: trim the `/v1/user/` and `/messages` path pieces,
then trim whitespace. -/
def extractPhone (path : String) : String :=
  goTrimSpace (goTrimSuf (goTrimPre path "/v1/user/") "/messages")

/-- Path shape validation of `GetUserMessages` / `DeleteUserMessages`. -/
def pathShapeOK (path : String) : Bool :=
  goHasPre path "/v1/user/" && goHasSuf path "/messages"

/-- `GetUserMessages` (`handlers.go` lines 99–132): validate the path,
extract and validate the recipient, then map the store lookup result.
`find` is `h.store.FindByPhoneNumber`, returning `.error` on storage
failure. -/
def getUserMessagesHandler (path : String)
    (find : String → Except String (List Message)) : Response :=
  if !pathShapeOK path then writeError 400 "BAD_REQUEST" "invalid URL path"
  else
    let phoneNumber := extractPhone path
    if phoneNumber = "" ∨ strContains phoneNumber '/' then
      writeError 400 "BAD_REQUEST" "invalid phoneNumber"
    else
      match find phoneNumber with
      | Except.error _ => writeError 500 "INTERNAL" "could not retrieve messages"
      | Except.ok messages => ⟨200, Body.msgs messages⟩

/-- `DeleteUserMessages` (`handlers.go` lines 161–196): same validation,
then `h.store.DeleteByPhoneNumber`. -/
def deleteUserMessagesHandler (path : String)
    (del : String → Except String Nat) : Response :=
  if !pathShapeOK path then writeError 400 "BAD_REQUEST" "invalid URL path"
  else
    let phoneNumber := extractPhone path
    if phoneNumber = "" ∨ strContains phoneNumber '/' then
      writeError 400 "BAD_REQUEST" "invalid phoneNumber"
    else
      match del phoneNumber with
      | Except.error _ => writeError 500 "INTERNAL" "could not delete messages"
      | Except.ok deletedCount =>
        ⟨200, Body.deleteResult "Messages deleted successfully" deletedCount phoneNumber⟩

/-- `GetConversations` (`handlers.go` lines 148–157): map the result of
`h.store.GetDistinctPhoneNumbers`. -/
def getConversationsHandler (list : Except String (List String)) : Response :=
  match list with
  | Except.error _ => writeError 500 "INTERNAL" "could not retrieve conversations"
  | Except.ok phoneNumbers => ⟨200, Body.phones phoneNumbers⟩

/-! ### Store API client (`frontend/lib/api.ts`, `storeApiClient.getUserMessages`) -/

/-- The message JSON as received over HTTP (`frontend/lib/api.ts`,
interface `Message`): `createdAt` is an ISO string. -/
structure ApiMessage where
  id : String
  correlationId : Option String
  phoneNumber : String
  text : String
  status : String
  createdAt : String
deriving Repr, DecidableEq

/-- Outcome of an axios request: a 2xx response with data, an HTTP error
response carrying a status code, or no response at all (network error). -/
inductive AxiosResult (α : Type) where
  | success (data : α)
  | httpError (status : Nat)
  | networkError
deriving Repr, DecidableEq

/-- `{...msg, createdAt: msg.createdAt || new Date().toISOString()}`. -/
def fillCreatedAt (nowIso : String) (m : ApiMessage) : ApiMessage :=
  if m.createdAt = "" then { m with createdAt := nowIso } else m

/-- `storeApiClient.getUserMessages` (`api.ts` lines 132–171): on
success, return the mapped array; with no response, throw a network
error; on an HTTP 404/400 return `[]`; on any other HTTP error also
return `[]`. -/
def clientGetUserMessages (nowIso : String)
    (r : AxiosResult (List ApiMessage)) : Except String (List ApiMessage) :=
  match r with
  | AxiosResult.success data => Except.ok (data.map (fillCreatedAt nowIso))
  | AxiosResult.networkError =>
    Except.error "Network Error: Unable to connect to SMS Store service"
  | AxiosResult.httpError status =>
    if status = 404 ∨ status = 400 then Except.ok []
    else Except.ok []

/-! ### Send entry point (sms-sender) and optimistic entry creation -/

/-- `{phoneNumber, message}` (`frontend/lib/api.ts`, `SendSmsRequest`). -/
structure SendSmsRequest where
  phoneNumber : String
  message : String
deriving Repr, DecidableEq

/-- `{requestId, status, timestamp}` (`frontend/lib/api.ts`,
`SendSmsResponse`). -/
structure SendSmsResponse where
  requestId : String
  status : String
  timestamp : Int
deriving Repr, DecidableEq

/-- Modelled from the spec: the sender's HTTP controller is not in the
source tree (only `EchoService` and the DTOs are), so the send entry
point is modelled from §6 of the spec and the frontend `SendSmsResponse`
type: an accepted `{recipient, text}` request synchronously yields a
response carrying the freshly assigned correlation identifier
(`requestId`), the initial status, and the acceptance timestamp. -/
def sendEntryPoint (_req : SendSmsRequest) (newRequestId initialStatus : String)
    (now : Int) : SendSmsResponse :=
  ⟨newRequestId, initialStatus, now⟩

/-- The optimistic message fabricated by `handleSend`
(`MessagingInterface.tsx` lines 317–324): both `id` and `correlationId`
are the response's `requestId`. -/
def mkOptimisticMessage (resp : SendSmsResponse) (phoneNumber text : String)
    (now : Int) : Message :=
  { id := resp.requestId
    correlationId := some resp.requestId
    phoneNumber := phoneNumber
    text := text
    status := resp.status
    createdAt := now }

/-! ### Event-ingestion merge (modelled from the spec) -/

/-- A delivery-status event `{correlationId, status, eventTime}`. -/
structure StatusEvent where
  correlationId : String
  status : String
  eventTime : Int
deriving Repr, DecidableEq

/-- A persisted message-store record with its last-applied event time. -/
structure StoredRecord where
  correlationId : String
  status : String
  createdAt : Int
  lastEventTime : Int
deriving Repr, DecidableEq

/-- `SUCCESS` and `FAILED` are the terminal statuses. -/
def isTerminal (s : String) : Bool :=
  s = "SUCCESS" || s = "FAILED"

/-- Modelled from the spec: the status-merge policy (spec §4.2 step 3)
applied to an existing record; the Kafka consumer and the Mongo-backed
message store that implement it are not in the source tree. A terminal
record discards a differing incoming status; an out-of-order (earlier)
event is discarded unless it is terminal and the record is not；
otherwise the status and last-applied event time are updated. -/
def mergeExisting (r : StoredRecord) (e : StatusEvent) : StoredRecord :=
  if isTerminal r.status ∧ r.status ≠ e.status then r
  else if e.eventTime < r.lastEventTime ∧ ¬(isTerminal e.status ∧ ¬isTerminal r.status) then r
  else { r with status := e.status, lastEventTime := e.eventTime }

/-- Apply the status-merge policy to the records carrying the event's
correlation id, leaving all other records unchanged. -/
def mergeTouch (e : StatusEvent) (r : StoredRecord) : StoredRecord :=
  if r.correlationId = e.correlationId then mergeExisting r e else r

/-- Modelled from the spec: the idempotent, order-tolerant upsert of a
status event into the message store (spec §4.1/§4.2 steps 1–3): insert a
new record when no record carries the event's correlation id, else merge
into every record carrying it. -/
def mergeEvent (log : List StoredRecord) (e : StatusEvent) : List StoredRecord :=
  match log.find? (fun r => r.correlationId = e.correlationId) with
  | none => log ++ [⟨e.correlationId, e.status, e.eventTime, e.eventTime⟩]
  | some _ => log.map (mergeTouch e)

/-! ### Concrete sample data used in witnesses and counterexamples -/

/-- A stale optimistic entry: created at 7000, so 3000ms old at a
reconciliation taking place at 10000. -/
def staleOpt : Message := ⟨"r1", some "r1", "+1", "hi", "PENDING", 7000⟩

/-- A fresh optimistic copy of send `r1` (500ms old at 10000). -/
def freshOpt1 : Message := ⟨"r1", some "r1", "+1", "hi", "PENDING", 9500⟩

/-- A fresh optimistic entry for a second send `r2`. -/
def freshOpt2 : Message := ⟨"r2", some "r2", "+1", "yo", "PENDING", 9600⟩

/-- The persisted counterpart of send `r1`. -/
def persisted1 : Message := ⟨"p1", some "r1", "+1", "hi", "SUCCESS", 9000⟩

/-- A local message already in terminal status. -/
def terminalLocal : Message := ⟨"m1", some "r1", "+1", "hi", "SUCCESS", 0⟩

/-! ### Claimed properties under test -/

/-- The claimed reconciliation-merge property: for every persisted and
locally held list, the merged view has exactly one entry per correlation
key appearing in either input and persisted entries always win. -/
def reconcileMergeClaim : Prop :=
  ∀ (now : Int) (data current : List Message),
    (∀ k, k ∈ (loadMessagesUpdate now true data current).map mkey ↔
        k ∈ (data ++ current).map mkey) ∧
    ((loadMessagesUpdate now true data current).map mkey).Nodup ∧
    (∀ m ∈ loadMessagesUpdate now true data current,
      mkey m ∈ data.map mkey → m ∈ data)

/-- The claimed monotonic-status rule for the push channel: a local
message with terminal status is never changed by a status event. -/
def pushMonotonicClaim : Prop :=
  ∀ (e : PushEvent) (msg : Message),
    isTerminal msg.status = true → pushUpdate e msg = msg

/-- The claimed poller fallback: whenever the poll attempts are exhausted
without finding the persisted counterpart, the unconditional
reconciliation refresh runs. -/
def pollerFallbackClaim : Prop :=
  ∀ (cid : String) (fetch : Nat → Option (List Message)),
    (pollForMessage cid fetch).replaced = none →
    (pollForMessage cid fetch).fallbackRefresh = true

/-! ### Lemmas about the merge map -/

theorem alHas_cons (a : String) (b : Message) (t : List (String × Message)) (k : String) :
    alHas ((a, b) :: t) k = (decide (a = k) || alHas t k) := rfl

theorem alSet_cons_pos {a : String} {b : Message} {t : List (String × Message)}
    {k : String} (v : Message) (h : a = k) :
    alSet ((a, b) :: t) k v = (a, v) :: t := by
  simp [alSet, h]

theorem alSet_cons_neg {a : String} {b : Message} {t : List (String × Message)}
    {k : String} (v : Message) (h : ¬a = k) :
    alSet ((a, b) :: t) k v = (a, b) :: alSet t k v := by
  simp [alSet, h]

theorem alSet_subset {l : List (String × Message)} {k : String} {v : Message} :
    ∀ q ∈ alSet l k v, q ∈ l ∨ q = (k, v) := by
  induction l with
  | nil =>
    intro q hq
    simp only [alSet, List.mem_singleton] at hq
    exact Or.inr hq
  | cons p t ih =>
    obtain ⟨a, b⟩ := p
    intro q hq
    by_cases hk : a = k
    · rw [alSet_cons_pos v hk] at hq
      rcases List.mem_cons.mp hq with hq | hq
      · subst hk; exact Or.inr (by simp [hq])
      · exact Or.inl (List.mem_cons_of_mem _ hq)
    · rw [alSet_cons_neg v hk] at hq
      rcases List.mem_cons.mp hq with hq | hq
      · exact Or.inl (by simp [hq])
      · rcases ih q hq with h | h
        · exact Or.inl (List.mem_cons_of_mem _ h)
        · exact Or.inr h

theorem alHas_iff {l : List (String × Message)} {k : String} :
    alHas l k = true ↔ k ∈ l.map Prod.fst := by
  simp only [alHas, List.any_eq_true, decide_eq_true_eq, List.mem_map]

theorem keys_alSet (l : List (String × Message)) (k : String) (v : Message) :
    (alSet l k v).map Prod.fst =
      if alHas l k then l.map Prod.fst else l.map Prod.fst ++ [k] := by
  induction l with
  | nil => simp [alSet, alHas]
  | cons p t ih =>
    obtain ⟨a, b⟩ := p
    by_cases hk : a = k
    · rw [alSet_cons_pos v hk, alHas_cons]
      subst hk
      simp
    · rw [alSet_cons_neg v hk, alHas_cons]
      have hd : decide (a = k) = false := by simp [hk]
      rw [hd, Bool.false_or]
      by_cases h : alHas t k = true
      · simp [h, ih]
      · rw [eq_false_of_ne_true h] at ih ⊢
        simp only [if_neg, Bool.false_eq_true, not_false_iff, List.map_cons, ih]
        simp

theorem alHas_alSet (l : List (String × Message)) (k : String) (v : Message) (k' : String) :
    alHas (alSet l k v) k' = (alHas l k' || decide (k' = k)) := by
  induction l with
  | nil =>
    show alHas [(k, v)] k' = _
    rw [alHas_cons]
    simp [alHas, eq_comm]
  | cons p t ih =>
    obtain ⟨a, b⟩ := p
    by_cases hk : a = k
    · rw [alSet_cons_pos v hk, alHas_cons, alHas_cons]
      subst hk
      by_cases h : k' = a
      · subst h; simp
      · have h' : ¬(a = k') := fun e => h e.symm
        simp [h, h']
    · rw [alSet_cons_neg v hk, alHas_cons, alHas_cons, ih, Bool.or_assoc]

theorem nodup_keys_alSet {l : List (String × Message)} {k : String} {v : Message}
    (h : (l.map Prod.fst).Nodup) : ((alSet l k v).map Prod.fst).Nodup := by
  rw [keys_alSet]
  by_cases hk : alHas l k = true
  · simp [hk, h]
  · rw [eq_false_of_ne_true hk]
    simp only [if_neg, Bool.false_eq_true, not_false_iff]
    rw [List.nodup_append]
    refine ⟨h, List.nodup_singleton k, ?_⟩
    intro x hx hk'
    rw [List.mem_singleton] at hk'
    subst hk'
    exact hk (alHas_iff.mpr hx)

theorem seed_fold_subset (ds : List Message) :
    ∀ acc, ∀ q ∈ ds.foldl (fun a m => alSet a (mkey m) m) acc,
      q ∈ acc ∨ ∃ m ∈ ds, q = (mkey m, m) := by
  induction ds with
  | nil => intro acc q hq; exact Or.inl hq
  | cons m rest ih =>
    intro acc q hq
    rw [List.foldl_cons] at hq
    rcases ih _ q hq with h | ⟨m', hm', rfl⟩
    · rcases alSet_subset q h with h' | h'
      · exact Or.inl h'
      · exact Or.inr ⟨m, List.mem_cons_self m rest, h'⟩
    · exact Or.inr ⟨m', List.mem_cons_of_mem _ hm', rfl⟩

theorem alHas_seed_fold (ds : List Message) :
    ∀ acc k, alHas (ds.foldl (fun a m => alSet a (mkey m) m) acc) k =
      (alHas acc k || ds.any (fun m => decide (mkey m = k))) := by
  induction ds with
  | nil => intro acc k; simp
  | cons m rest ih =>
    intro acc k
    rw [List.foldl_cons, ih, alHas_alSet, List.any_cons]
    by_cases h : mkey m = k
    · simp [h]
    · have h' : ¬(k = mkey m) := fun e => h e.symm
      simp [h, h']

theorem nodup_keys_seed_fold (ds : List Message) :
    ∀ acc, (acc.map Prod.fst).Nodup →
      ((ds.foldl (fun a m => alSet a (mkey m) m) acc).map Prod.fst).Nodup := by
  induction ds with
  | nil => intro acc h; exact h
  | cons m rest ih =>
    intro acc h
    rw [List.foldl_cons]
    exact ih _ (nodup_keys_alSet h)

theorem seed_entry {data : List Message} :
    ∀ q ∈ seedPersisted data, q.2 ∈ data ∧ q.1 = mkey q.2 := by
  intro q hq
  rcases seed_fold_subset data [] q hq with h | ⟨m, hm, rfl⟩
  · exact absurd h (List.not_mem_nil q)
  · exact ⟨hm, rfl⟩

theorem alHas_seed {data : List Message} {k : String} :
    alHas (seedPersisted data) k = true ↔ k ∈ data.map mkey := by
  rw [seedPersisted, alHas_seed_fold]
  simp [alHas, List.any_eq_true, List.mem_map]

theorem nodup_keys_seed (data : List Message) :
    ((seedPersisted data).map Prod.fst).Nodup := by
  exact nodup_keys_seed_fold data [] (by simp)

theorem addOpt_keeps {opts : List Message} :
    ∀ acc, ∀ q ∈ acc, q ∈ addOptimistic acc opts := by
  induction opts with
  | nil => intro acc q hq; exact hq
  | cons m rest ih =>
    intro acc q hq
    rw [addOptimistic, List.foldl_cons]
    by_cases h : alHas acc (mkey m) = true
    · simp only [h, if_pos]
      exact ih acc q hq
    · rw [eq_false_of_ne_true h]
      simp only [Bool.false_eq_true, if_neg, not_false_iff]
      exact ih _ q (List.mem_append_left _ hq)

theorem alHas_addOpt {opts : List Message} :
    ∀ acc k, alHas (addOptimistic acc opts) k =
      (alHas acc k || opts.any (fun m => decide (mkey m = k))) := by
  induction opts with
  | nil => intro acc k; simp [addOptimistic]
  | cons m rest ih =>
    intro acc k
    rw [addOptimistic, List.foldl_cons]
    by_cases h : alHas acc (mkey m) = true
    · simp only [h, if_pos]
      rw [show (rest.foldl (fun acc m => if alHas acc (mkey m) then acc
            else acc ++ [(mkey m, m)]) acc) = addOptimistic acc rest from rfl, ih]
      by_cases hk : mkey m = k
      · subst hk; simp [h]
      · have hk' : ¬(k = mkey m) := fun e => hk e.symm
        simp [hk, hk']
    · rw [eq_false_of_ne_true h]
      simp only [Bool.false_eq_true, if_neg, not_false_iff]
      rw [show (rest.foldl (fun acc m => if alHas acc (mkey m) then acc
            else acc ++ [(mkey m, m)]) (acc ++ [(mkey m, m)])) =
          addOptimistic (acc ++ [(mkey m, m)]) rest from rfl, ih]
      have happ : alHas (acc ++ [(mkey m, m)]) k = (alHas acc k || decide (mkey m = k)) := by
        simp [alHas, List.any_append]
      rw [happ, List.any_cons, Bool.or_assoc]

theorem addOpt_subset {opts : List Message} :
    ∀ acc, ∀ q ∈ addOptimistic acc opts,
      q ∈ acc ∨ (q.2 ∈ opts ∧ q.1 = mkey q.2 ∧ alHas acc q.1 = false) := by
  induction opts with
  | nil => intro acc q hq; exact Or.inl hq
  | cons m rest ih =>
    intro acc q hq
    rw [addOptimistic, List.foldl_cons] at hq
    by_cases h : alHas acc (mkey m) = true
    · simp only [h, if_pos] at hq
      rcases ih acc q hq with h' | ⟨h1, h2, h3⟩
      · exact Or.inl h'
      · exact Or.inr ⟨List.mem_cons_of_mem _ h1, h2, h3⟩
    · rw [eq_false_of_ne_true h] at hq
      simp only [Bool.false_eq_true, if_neg, not_false_iff] at hq
      rcases ih _ q hq with h' | ⟨h1, h2, h3⟩
      · rcases List.mem_append.mp h' with h'' | h''
        · exact Or.inl h''
        · rw [List.mem_singleton] at h''
          subst h''
          exact Or.inr ⟨List.mem_cons_self m rest, rfl, eq_false_of_ne_true h⟩
      · have h3' : alHas acc q.1 = false := by
          have : alHas (acc ++ [(mkey m, m)]) q.1 = (alHas acc q.1 || decide (mkey m = q.1)) := by
            simp [alHas, List.any_append]
          rw [this] at h3
          exact (Bool.or_eq_false_iff.mp h3).1
        exact Or.inr ⟨List.mem_cons_of_mem _ h1, h2, h3'⟩

theorem addOpt_adds {opts : List Message} {m : Message} :
    ∀ acc, m ∈ opts → alHas acc (mkey m) = false →
      (∀ m' ∈ opts, mkey m' = mkey m → m' = m) →
      (mkey m, m) ∈ addOptimistic acc opts := by
  induction opts with
  | nil => intro acc hm; exact absurd hm (List.not_mem_nil m)
  | cons m0 rest ih =>
    intro acc hm hacc huniq
    rw [addOptimistic, List.foldl_cons]
    by_cases he : m0 = m
    · subst he
      rw [hacc]
      simp only [Bool.false_eq_true, if_neg, not_false_iff]
      exact addOpt_keeps _ _ (List.mem_append_right _ (List.mem_singleton_self _))
    · have hm' : m ∈ rest := by
        rcases List.mem_cons.mp hm with h | h
        · exact absurd h.symm he
        · exact h
      have hkne : mkey m0 ≠ mkey m := fun e =>
        he (huniq m0 (List.mem_cons_self m0 rest) e)
      by_cases h : alHas acc (mkey m0) = true
      · simp only [h, if_pos]
        exact ih acc hm' hacc (fun m' hm'' => huniq m' (List.mem_cons_of_mem _ hm''))
      · rw [eq_false_of_ne_true h]
        simp only [Bool.false_eq_true, if_neg, not_false_iff]
        have hacc' : alHas (acc ++ [(mkey m0, m0)]) (mkey m) = false := by
          have : alHas (acc ++ [(mkey m0, m0)]) (mkey m) =
              (alHas acc (mkey m) || decide (mkey m0 = mkey m)) := by
            simp [alHas, List.any_append]
          rw [this, hacc]
          simp [hkne]
        exact ih _ hm' hacc' (fun m' hm'' => huniq m' (List.mem_cons_of_mem _ hm''))

theorem nodup_keys_addOpt {opts : List Message} :
    ∀ acc, (acc.map Prod.fst).Nodup →
      ((addOptimistic acc opts).map Prod.fst).Nodup := by
  induction opts with
  | nil => intro acc h; exact h
  | cons m rest ih =>
    intro acc h
    rw [addOptimistic, List.foldl_cons]
    by_cases hh : alHas acc (mkey m) = true
    · simp only [hh, if_pos]
      exact ih acc h
    · rw [eq_false_of_ne_true hh]
      simp only [Bool.false_eq_true, if_neg, not_false_iff]
      refine ih _ ?_
      rw [List.map_append, List.nodup_append]
      refine ⟨h, by simp, ?_⟩
      intro x hx hk'
      simp only [List.map_cons, List.map_nil, List.mem_singleton] at hk'
      subst hk'
      exact hh (alHas_iff.mpr hx)

/-! ### Lemmas about sorting and the assembled merge -/

theorem insertByCreated_perm (m : Message) (l : List Message) :
    (insertByCreated m l).Perm (m :: l) := by
  induction l with
  | nil => exact List.Perm.refl _
  | cons x xs ih =>
    rw [insertByCreated]
    by_cases h : m.createdAt ≤ x.createdAt
    · simp only [h, if_pos]
      exact List.Perm.refl _
    · simp only [h, if_neg, not_false_iff]
      exact (ih.cons x).trans (List.Perm.swap m x xs)

theorem sortByCreated_perm (l : List Message) : (sortByCreated l).Perm l := by
  induction l with
  | nil => exact List.Perm.refl _
  | cons x xs ih =>
    rw [sortByCreated, List.foldr_cons]
    exact (insertByCreated_perm x _).trans (ih.cons x)

theorem survive_false_cases {now : Int} {data : List Message} {m : Message}
    (h : surviveFilter now data m = false) :
    mkey m ∈ persistedKeys data ∨ m.id ∈ persistedIds data ∨
      now - m.createdAt > STALE_MS := by
  unfold surviveFilter at h
  split_ifs at h with h1 h2 h3
  · exact Or.inl h1.2
  · exact Or.inr (Or.inl h2)
  · exact Or.inr (Or.inr h3)

theorem survive_true_of {now : Int} {data : List Message} {m : Message}
    (h1 : mkey m ∉ data.map mkey) (h2 : m.id ∉ data.map (fun m => m.id))
    (h3 : now - m.createdAt ≤ STALE_MS) : surviveFilter now data m = true := by
  unfold surviveFilter
  have k1 : ¬(mkey m ≠ "" ∧ mkey m ∈ persistedKeys data) := by
    rintro ⟨-, hk⟩
    exact h1 (by
      rw [persistedKeys, List.mem_filter] at hk
      exact hk.1)
  have k2 : m.id ∉ persistedIds data := h2
  have k3 : ¬(now - m.createdAt > STALE_MS) := not_lt.mpr h3
  rw [if_neg k1, if_neg k2, if_neg k3]

theorem survive_false_of_stale {now : Int} {data : List Message} {m : Message}
    (h : now - m.createdAt > STALE_MS) : surviveFilter now data m = false := by
  unfold surviveFilter
  split_ifs <;> rfl

theorem merged_entry {now : Int} {data current : List Message} :
    ∀ q ∈ mergedAL now data current,
      (q.2 ∈ data ∨ (q.2 ∈ current ∧ surviveFilter now data q.2 = true)) ∧
        q.1 = mkey q.2 := by
  intro q hq
  rcases addOpt_subset _ q hq with h | ⟨h1, h2, _⟩
  · obtain ⟨hd, hk⟩ := seed_entry q h
    exact ⟨Or.inl hd, hk⟩
  · rw [List.mem_filter] at h1
    exact ⟨Or.inr ⟨h1.1, h1.2⟩, h2⟩

theorem merged_keys_eq (now : Int) (data current : List Message) :
    ((mergedAL now data current).map Prod.snd).map mkey =
      (mergedAL now data current).map Prod.fst := by
  rw [List.map_map]
  exact List.map_congr_left (fun q hq => ((merged_entry q hq).2).symm)

theorem nodup_keys_merged (now : Int) (data current : List Message) :
    ((mergedAL now data current).map Prod.fst).Nodup :=
  nodup_keys_addOpt _ (nodup_keys_seed data)

theorem alHas_merged {now : Int} {data current : List Message} {k : String} :
    alHas (mergedAL now data current) k = true ↔
      k ∈ data.map mkey ∨
        ∃ m ∈ current, surviveFilter now data m = true ∧ mkey m = k := by
  rw [mergedAL, alHas_addOpt]
  rw [Bool.or_eq_true, alHas_seed, List.any_eq_true]
  constructor
  · rintro (h | ⟨m, hm, hk⟩)
    · exact Or.inl h
    · rw [List.mem_filter] at hm
      exact Or.inr ⟨m, hm.1, hm.2, of_decide_eq_true hk⟩
  · rintro (h | ⟨m, hm, hs, hk⟩)
    · exact Or.inl h
    · exact Or.inr ⟨m, List.mem_filter.mpr ⟨hm, hs⟩, decide_eq_true hk⟩

theorem mem_merge_keys {now : Int} {data current : List Message} {k : String} :
    k ∈ (mergeMessages now data current).map mkey ↔
      k ∈ data.map mkey ∨
        ∃ m ∈ current, surviveFilter now data m = true ∧ mkey m = k := by
  have hp : ((mergeMessages now data current).map mkey).Perm
      (((mergedAL now data current).map Prod.snd).map mkey) :=
    (sortByCreated_perm _).map mkey
  rw [hp.mem_iff, merged_keys_eq, ← alHas_iff, alHas_merged]

theorem merged_persisted_wins {now : Int} {data current : List Message} :
    ∀ m ∈ mergeMessages now data current, mkey m ∈ data.map mkey → m ∈ data := by
  intro m hm hk
  have hm' : m ∈ (mergedAL now data current).map Prod.snd :=
    ((sortByCreated_perm _).mem_iff).mp hm
  obtain ⟨q, hq, hq2⟩ := List.mem_map.mp hm'
  rcases addOpt_subset _ q hq with h | ⟨_, h2, h3⟩
  · exact hq2 ▸ (seed_entry q h).1
  · exfalso
    rw [h2, hq2] at h3
    rw [← alHas_seed] at hk
    rw [hk] at h3
    cases h3

theorem mem_merge_of_optimistic {now : Int} {data current : List Message} {m : Message}
    (hm : m ∈ current) (hk : mkey m ∉ data.map mkey)
    (hs : surviveFilter now data m = true)
    (huniq : ∀ m' ∈ current, mkey m' = mkey m → m' = m) :
    m ∈ mergeMessages now data current := by
  have hmf : m ∈ current.filter (surviveFilter now data) :=
    List.mem_filter.mpr ⟨hm, hs⟩
  have hseed : alHas (seedPersisted data) (mkey m) = false := by
    by_contra h
    exact hk (alHas_seed.mp (Bool.of_not_eq_false h))
  have huniq' : ∀ m' ∈ current.filter (surviveFilter now data), mkey m' = mkey m → m' = m :=
    fun m' hm' => huniq m' (List.mem_filter.mp hm').1
  have hin : (mkey m, m) ∈ mergedAL now data current :=
    addOpt_adds _ hmf hseed huniq'
  have : m ∈ (mergedAL now data current).map Prod.snd :=
    List.mem_map.mpr ⟨(mkey m, m), hin, rfl⟩
  exact ((sortByCreated_perm _).mem_iff).mpr this

theorem mem_merge_src {now : Int} {data current : List Message} :
    ∀ m ∈ mergeMessages now data current,
      m ∈ data ∨ (m ∈ current ∧ surviveFilter now data m = true) := by
  intro m hm
  have hm' : m ∈ (mergedAL now data current).map Prod.snd :=
    ((sortByCreated_perm _).mem_iff).mp hm
  obtain ⟨q, hq, hq2⟩ := List.mem_map.mp hm'
  rcases (merged_entry q hq).1 with h | h
  · exact Or.inl (hq2 ▸ h)
  · exact Or.inr (hq2 ▸ h)

theorem persistedKeys_subset {data : List Message} {k : String}
    (h : k ∈ persistedKeys data) : k ∈ data.map mkey :=
  (List.mem_filter.mp h).1

theorem update_nil (now : Int) (data : List Message) :
    loadMessagesUpdate now true data [] = sortByCreated data := rfl

theorem update_eq_merge (now : Int) (data : List Message) {current : List Message}
    (h : current ≠ []) :
    loadMessagesUpdate now true data current = mergeMessages now data current := by
  unfold loadMessagesUpdate
  have he : current.isEmpty = false := by
    cases current with
    | nil => exact absurd rfl h
    | cons a t => rfl
  rw [he]
  rfl

theorem update_persisted_wins (now : Int) (data current : List Message) :
    ∀ m ∈ loadMessagesUpdate now true data current,
      mkey m ∈ data.map mkey → m ∈ data := by
  intro m hm hk
  cases current with
  | nil =>
    rw [update_nil] at hm
    exact ((sortByCreated_perm data).mem_iff).mp hm
  | cons c cs =>
    rw [update_eq_merge now data (by simp)] at hm
    exact merged_persisted_wins m hm hk

/-! ### Lemmas about the delivery poller -/

theorem pollRun_stop {cid : String} {fetch : Nat → Option (List Message)}
    {attempt : Nat} {p : Message} (h : matchAt cid fetch attempt = some p) :
    ∀ remaining, pollRun cid fetch remaining attempt = ⟨attempt + 1, some p, false⟩ := by
  intro remaining
  rw [matchAt] at h
  cases hf : fetch attempt with
  | none => rw [hf] at h; cases h
  | some data =>
    rw [hf] at h
    simp only [Option.some_bind] at h
    cases remaining <;> simp [pollRun, hf, h]

theorem pollRun_skip {cid : String} {fetch : Nat → Option (List Message)}
    {attempt : Nat} (h : matchAt cid fetch attempt = none) (r : Nat) :
    pollRun cid fetch (r + 1) attempt = pollRun cid fetch r (attempt + 1) := by
  rw [matchAt] at h
  cases hf : fetch attempt with
  | none => simp [pollRun, hf]
  | some data =>
    rw [hf] at h
    simp only [Option.some_bind] at h
    simp [pollRun, hf, h]

theorem pollRun_exhaust {cid : String} {fetch : Nat → Option (List Message)}
    {attempt : Nat} (h : matchAt cid fetch attempt = none) :
    pollRun cid fetch 0 attempt = ⟨attempt + 1, none, (fetch attempt).isSome⟩ := by
  rw [matchAt] at h
  cases hf : fetch attempt with
  | none => simp [pollRun, hf]
  | some data =>
    rw [hf] at h
    simp only [Option.some_bind] at h
    simp [pollRun, hf, h]

theorem pollRun_attempts_le (cid : String) (fetch : Nat → Option (List Message)) :
    ∀ remaining attempt,
      (pollRun cid fetch remaining attempt).attemptsRun ≤ attempt + remaining + 1 := by
  intro remaining
  induction remaining with
  | zero =>
    intro attempt
    cases hm : matchAt cid fetch attempt with
    | none => rw [pollRun_exhaust hm]
    | some p => rw [pollRun_stop hm]
  | succ r ih =>
    intro attempt
    cases hm : matchAt cid fetch attempt with
    | none =>
      rw [pollRun_skip hm]
      have := ih (attempt + 1)
      omega
    | some p =>
      rw [pollRun_stop hm]
      show attempt + 1 ≤ attempt + (r + 1) + 1
      omega

theorem pollRun_first_match {cid : String} {fetch : Nat → Option (List Message)}
    {p : Message} :
    ∀ i remaining attempt,
      (∀ j, attempt ≤ j → j < attempt + i → matchAt cid fetch j = none) →
      matchAt cid fetch (attempt + i) = some p → i ≤ remaining →
      pollRun cid fetch remaining attempt = ⟨attempt + i + 1, some p, false⟩ := by
  intro i
  induction i with
  | zero =>
    intro remaining attempt _ hm _
    rw [Nat.add_zero] at hm ⊢
    rw [pollRun_stop hm]
  | succ n ih =>
    intro remaining attempt hnone hm hle
    have h0 : matchAt cid fetch attempt = none :=
      hnone attempt (Nat.le_refl _) (by omega)
    obtain ⟨r, rfl⟩ : ∃ r, remaining = r + 1 := ⟨remaining - 1, by omega⟩
    rw [pollRun_skip h0]
    have hm' : matchAt cid fetch (attempt + 1 + n) = some p := by
      rw [show attempt + 1 + n = attempt + (n + 1) by omega]
      exact hm
    have := ih r (attempt + 1)
      (fun j hj1 hj2 => hnone j (by omega) (by omega)) hm' (by omega)
    rw [this]
    congr 1
    omega

theorem pollRun_no_match {cid : String} {fetch : Nat → Option (List Message)} :
    ∀ remaining attempt,
      (∀ j, attempt ≤ j → j ≤ attempt + remaining → matchAt cid fetch j = none) →
      pollRun cid fetch remaining attempt =
        ⟨attempt + remaining + 1, none, (fetch (attempt + remaining)).isSome⟩ := by
  intro remaining
  induction remaining with
  | zero =>
    intro attempt h
    exact pollRun_exhaust (h attempt (Nat.le_refl _) (by omega))
  | succ r ih =>
    intro attempt h
    rw [pollRun_skip (h attempt (Nat.le_refl _) (by omega))]
    have := ih (attempt + 1) (fun j hj1 hj2 => h j (by omega) (by omega))
    rw [this]
    have e1 : attempt + 1 + r = attempt + (r + 1) := by omega
    rw [e1]

/-! ### Lemmas about the event-ingestion merge -/

theorem find?_map_pres {α : Type} {p : α → Bool} {f : α → α}
    (hp : ∀ x, p (f x) = p x) (l : List α) :
    (l.map f).find? p = (l.find? p).map f := by
  induction l with
  | nil => rfl
  | cons a t ih =>
    by_cases h : p a = true
    · rw [List.map_cons, List.find?_cons_of_pos _ (show p (f a) = true by rw [hp]; exact h),
        List.find?_cons_of_pos _ h]
      rfl
    · rw [List.map_cons, List.find?_cons_of_neg _ (show ¬p (f a) = true by rw [hp]; exact h),
        List.find?_cons_of_neg _ h, ih]

theorem mergeExisting_correlationId (r : StoredRecord) (e : StatusEvent) :
    (mergeExisting r e).correlationId = r.correlationId := by
  unfold mergeExisting
  split_ifs <;> rfl

theorem mergeExisting_applied {r : StoredRecord} {e : StatusEvent}
    (h1 : r.status = e.status) (h2 : r.lastEventTime = e.eventTime) :
    mergeExisting r e = r := by
  unfold mergeExisting
  split_ifs with ha hb
  · rfl
  · rfl
  · rw [← h1, ← h2]

theorem mergeExisting_idem (r : StoredRecord) (e : StatusEvent) :
    mergeExisting (mergeExisting r e) e = mergeExisting r e := by
  by_cases h1 : isTerminal r.status = true ∧ r.status ≠ e.status
  · have hr : mergeExisting r e = r := by
      unfold mergeExisting
      rw [if_pos h1]
    rw [hr]
    exact hr
  · by_cases h2 : e.eventTime < r.lastEventTime ∧
        ¬(isTerminal e.status = true ∧ ¬isTerminal r.status = true)
    · have hr : mergeExisting r e = r := by
        unfold mergeExisting
        rw [if_neg h1, if_pos h2]
      rw [hr]
      exact hr
    · have hr : mergeExisting r e = { r with status := e.status, lastEventTime := e.eventTime } := by
        unfold mergeExisting
        rw [if_neg h1, if_neg h2]
      rw [hr]
      exact mergeExisting_applied rfl rfl

theorem mergeEvent_of_none {log : List StoredRecord} {e : StatusEvent}
    (h : log.find? (fun r => r.correlationId = e.correlationId) = none) :
    mergeEvent log e = log ++ [⟨e.correlationId, e.status, e.eventTime, e.eventTime⟩] := by
  unfold mergeEvent
  rw [h]

theorem mergeEvent_of_some {log : List StoredRecord} {e : StatusEvent} {r0 : StoredRecord}
    (h : log.find? (fun r => r.correlationId = e.correlationId) = some r0) :
    mergeEvent log e = log.map (mergeTouch e) := by
  unfold mergeEvent
  rw [h]

theorem mergeTouch_of_match {e : StatusEvent} {x : StoredRecord}
    (hx : x.correlationId = e.correlationId) : mergeTouch e x = mergeExisting x e := by
  unfold mergeTouch
  rw [if_pos hx]

theorem mergeTouch_of_other {e : StatusEvent} {x : StoredRecord}
    (hx : ¬x.correlationId = e.correlationId) : mergeTouch e x = x := by
  unfold mergeTouch
  rw [if_neg hx]

theorem mergeTouch_correlationId (e : StatusEvent) (x : StoredRecord) :
    (mergeTouch e x).correlationId = x.correlationId := by
  unfold mergeTouch
  split_ifs with hx
  · exact mergeExisting_correlationId x e
  · rfl

theorem mergeTouch_idem (e : StatusEvent) (x : StoredRecord) :
    mergeTouch e (mergeTouch e x) = mergeTouch e x := by
  by_cases hx : x.correlationId = e.correlationId
  · rw [mergeTouch_of_match hx,
      mergeTouch_of_match (by rw [mergeExisting_correlationId]; exact hx),
      mergeExisting_idem]
  · rw [mergeTouch_of_other hx, mergeTouch_of_other hx]

theorem mergeEvent_idem (log : List StoredRecord) (e : StatusEvent) :
    mergeEvent (mergeEvent log e) e = mergeEvent log e := by
  cases h : log.find? (fun r => r.correlationId = e.correlationId) with
  | none =>
    rw [mergeEvent_of_none h]
    have hpos : (decide ((⟨e.correlationId, e.status, e.eventTime, e.eventTime⟩ :
        StoredRecord).correlationId = e.correlationId)) = true := by simp
    have hfind : (log ++ [(⟨e.correlationId, e.status, e.eventTime, e.eventTime⟩ :
        StoredRecord)]).find? (fun r => r.correlationId = e.correlationId) =
        some ⟨e.correlationId, e.status, e.eventTime, e.eventTime⟩ := by
      rw [List.find?_append, h]
      simp only [Option.none_or]
      exact List.find?_cons_of_pos _ hpos
    rw [mergeEvent_of_some hfind, List.map_append]
    congr 1
    · have hnone : ∀ x ∈ log, ¬(decide (x.correlationId = e.correlationId) = true) :=
        List.find?_eq_none.mp h
      have heach : ∀ x ∈ log, mergeTouch e x = x := fun x hx =>
        mergeTouch_of_other (fun hc => hnone x hx (decide_eq_true hc))
      rw [List.map_congr_left heach]
      exact List.map_id log
    · simp only [List.map_cons, List.map_nil]
      rw [mergeTouch_of_match rfl, mergeExisting_applied rfl rfl]
  | some r0 =>
    rw [mergeEvent_of_some h]
    have hpres : ∀ x : StoredRecord,
        (decide ((mergeTouch e x).correlationId = e.correlationId)) =
        (decide (x.correlationId = e.correlationId)) := by
      intro x
      rw [mergeTouch_correlationId]
    have hfind2 : (log.map (mergeTouch e)).find?
        (fun r => r.correlationId = e.correlationId) = some (mergeTouch e r0) := by
      rw [find?_map_pres hpres, h]
      rfl
    rw [mergeEvent_of_some hfind2, List.map_map]
    exact List.map_congr_left (fun x _ => mergeTouch_idem e x)

end SMSSystem

namespace SMSSystem

/-! ## Claims -/

/-- **C1, counterexample.** The reconciliation merge as claimed — one
output entry per correlation key appearing in either input — is false:
with an empty persisted list and a single optimistic entry older than
the freshness threshold (created at 7000, reconciled at 10000), the
merged view is empty, so the optimistic entry's key appears in the
inputs but not in the output. -/
theorem reconcileMergeClaim_false : ¬reconcileMergeClaim := by
  intro h
  have h1 := (h 10000 [] [staleOpt]).1 "r1"
  have h2 : ("r1" : String) ∈ ((([] : List Message) ++ [staleOpt]).map mkey) := by
    decide
  exact absurd (h1.mpr h2) (by decide)

/-- **C1, amended.** For fresh optimistic entries (age at most the
freshness threshold) whose ids do not collide with persisted ids, and a
persisted list with distinct correlation keys, the reconciliation merge
(`loadMessages` with `preserveOptimistic = true`) yields exactly one
entry per distinct correlation key appearing in either input, and every
key present in the persisted list maps to the persisted entry. -/
theorem reconcile_merge_per_key (now : Int) (data current : List Message)
    (hfresh : ∀ m ∈ current, now - m.createdAt ≤ STALE_MS)
    (hids : ∀ m ∈ current, m.id ∉ data.map (fun x => x.id))
    (hkeys : (data.map mkey).Nodup) :
    (∀ k, k ∈ (loadMessagesUpdate now true data current).map mkey ↔
        k ∈ (data ++ current).map mkey) ∧
    ((loadMessagesUpdate now true data current).map mkey).Nodup ∧
    (∀ m ∈ loadMessagesUpdate now true data current,
      mkey m ∈ data.map mkey → m ∈ data) := by
  refine ⟨?_, ?_, update_persisted_wins now data current⟩
  · intro k
    cases current with
    | nil =>
      rw [update_nil, List.append_nil]
      exact ((sortByCreated_perm data).map mkey).mem_iff
    | cons c cs =>
      rw [update_eq_merge now data (by simp), mem_merge_keys,
        List.map_append, List.mem_append]
      constructor
      · rintro (h | ⟨m, hm, _, rfl⟩)
        · exact Or.inl h
        · exact Or.inr (List.mem_map.mpr ⟨m, hm, rfl⟩)
      · rintro (h | h)
        · exact Or.inl h
        · obtain ⟨m, hm, rfl⟩ := List.mem_map.mp h
          by_cases hs : surviveFilter now data m = true
          · exact Or.inr ⟨m, hm, hs, rfl⟩
          · rcases survive_false_cases (eq_false_of_ne_true hs) with h1 | h1 | h1
            · exact Or.inl (persistedKeys_subset h1)
            · exact absurd h1 (hids m hm)
            · exact absurd h1 (not_lt.mpr (hfresh m hm))
  · cases current with
    | nil =>
      rw [update_nil]
      exact (((sortByCreated_perm data).map mkey).nodup_iff).mpr hkeys
    | cons c cs =>
      rw [update_eq_merge now data (by simp)]
      have hperm : ((mergeMessages now data (c :: cs)).map mkey).Perm
          ((mergedAL now data (c :: cs)).map Prod.fst) := by
        have hp := (sortByCreated_perm ((mergedAL now data (c :: cs)).map Prod.snd)).map mkey
        rwa [merged_keys_eq] at hp
      exact hperm.nodup_iff.mpr (nodup_keys_merged _ _ _)

/-- **C1, witness.** One persisted entry (key `r1`, `SUCCESS`) merged
with a fresh superseded optimistic copy of `r1` and a fresh unmatched
optimistic `r2`. -/
theorem reconcile_merge_per_key_witness :
    (∀ k, k ∈ (loadMessagesUpdate 10000 true [persisted1]
        [freshOpt1, freshOpt2]).map mkey ↔
        k ∈ (([persisted1] ++ [freshOpt1, freshOpt2]).map mkey)) ∧
    ((loadMessagesUpdate 10000 true [persisted1]
        [freshOpt1, freshOpt2]).map mkey).Nodup ∧
    (∀ m ∈ loadMessagesUpdate 10000 true [persisted1] [freshOpt1, freshOpt2],
      mkey m ∈ ([persisted1] : List Message).map mkey →
      m ∈ ([persisted1] : List Message)) :=
  reconcile_merge_per_key 10000 [persisted1] [freshOpt1, freshOpt2]
    (by decide) (by decide) (by decide)

/-- **C2, counterexample.** The client applies no monotonic-status rule:
a push event `{requestId: "r1", status: "FAILED"}` matching a local
message whose status is terminal (`SUCCESS`) overwrites that status. -/
theorem pushMonotonicClaim_false : ¬pushMonotonicClaim := by
  intro h
  have h1 := h ⟨"r1", "FAILED"⟩ terminalLocal (by decide)
  exact absurd h1 (by decide)

/-- **C2, amended.** The client applies no terminal-status protection: a
push-channel event whose `requestId` matches a local message (by
correlation key or id) unconditionally overwrites that message's status
with the event's status, and a reconciliation merge yields the persisted
entry for every persisted correlation key regardless of the local
entry's status. -/
theorem client_no_terminal_protection :
    (∀ (e : PushEvent) (msg : Message),
      mkey msg = e.requestId ∨ msg.id = e.requestId →
      pushUpdate e msg = { msg with status := e.status }) ∧
    (∀ (now : Int) (data current : List Message),
      ∀ m ∈ loadMessagesUpdate now true data current,
        mkey m ∈ data.map mkey → m ∈ data) := by
  constructor
  · intro e msg h
    unfold pushUpdate
    rw [if_pos h]
  · exact fun now data current => update_persisted_wins now data current

/-- **C2, witness.** The push overwrite applied to a terminal-status
message, and persisted-wins applied to a concrete merge. -/
theorem client_no_terminal_protection_witness :
    pushUpdate ⟨"r1", "FAILED"⟩ terminalLocal =
      { terminalLocal with status := "FAILED" } ∧
    persisted1 ∈ ([persisted1] : List Message) :=
  ⟨client_no_terminal_protection.1 ⟨"r1", "FAILED"⟩ terminalLocal (by decide),
   client_no_terminal_protection.2 10000 [persisted1] [freshOpt1] persisted1
     (by decide) (by decide)⟩

/-- **C3.** Applying the same status event to the message store `n ≥ 1`
times yields the same final log as applying it once: the upsert merge is
idempotent. -/
theorem mergeEvent_iterate_idem (log : List StoredRecord) (e : StatusEvent)
    (n : Nat) (h : 1 ≤ n) :
    (fun l => mergeEvent l e)^[n] log = mergeEvent log e := by
  obtain ⟨m, rfl⟩ : ∃ m, n = m + 1 := ⟨n - 1, by omega⟩
  clear h
  induction m with
  | zero => rw [Function.iterate_one]
  | succ k ih =>
    rw [Function.iterate_succ_apply', ih]
    exact mergeEvent_idem log e

/-- **C3, witness.** Applying a `SUCCESS` event three times to the empty
log equals applying it once. -/
theorem mergeEvent_iterate_idem_witness :
    (fun l => mergeEvent l (⟨"r1", "SUCCESS", 5⟩ : StatusEvent))^[3] [] =
      mergeEvent [] ⟨"r1", "SUCCESS", 5⟩ :=
  mergeEvent_iterate_idem [] ⟨"r1", "SUCCESS", 5⟩ 3 (by decide)

/-- **C5.** Stale-optimistic eviction: during a preserve-optimistic
reconciliation, an optimistic entry older than the freshness threshold
with no matching persisted correlation key is dropped from the merged
view; a younger unmatched optimistic entry (distinct key and id from all
persisted entries, unique key among local entries) is kept. -/
theorem stale_optimistic_eviction (now : Int) (data current : List Message)
    (m : Message) :
    (now - m.createdAt > STALE_MS → mkey m ∉ data.map mkey →
      m ∉ loadMessagesUpdate now true data current) ∧
    (m ∈ current → now - m.createdAt ≤ STALE_MS → mkey m ∉ data.map mkey →
      m.id ∉ data.map (fun x => x.id) →
      (∀ x ∈ current, mkey x = mkey m → x = m) →
      m ∈ loadMessagesUpdate now true data current) := by
  constructor
  · intro hstale hkey hmem
    cases current with
    | nil =>
      rw [update_nil] at hmem
      exact hkey (List.mem_map.mpr
        ⟨m, ((sortByCreated_perm data).mem_iff).mp hmem, rfl⟩)
    | cons c cs =>
      rw [update_eq_merge now data (by simp)] at hmem
      rcases mem_merge_src m hmem with h | ⟨_, hs⟩
      · exact hkey (List.mem_map.mpr ⟨m, h, rfl⟩)
      · rw [survive_false_of_stale hstale] at hs
        cases hs
  · intro hc hfr hkey hid huniq
    have hne : current ≠ [] := List.ne_nil_of_mem hc
    rw [update_eq_merge now data hne]
    exact mem_merge_of_optimistic hc hkey (survive_true_of hkey hid hfr) huniq

/-- **C5, witness.** The stale unmatched optimistic entry (3000ms old)
is dropped; a fresh unmatched one (400ms old) is kept. -/
theorem stale_optimistic_eviction_witness :
    staleOpt ∉ loadMessagesUpdate 10000 true [] [staleOpt] ∧
    freshOpt2 ∈ loadMessagesUpdate 10000 true [] [freshOpt2] :=
  ⟨(stale_optimistic_eviction 10000 [] [staleOpt] staleOpt).1
      (by decide) (by decide),
   (stale_optimistic_eviction 10000 [] [freshOpt2] freshOpt2).2
      (by decide) (by decide) (by decide) (by decide) (by decide)⟩


/-- **C4, counterexample.** The claimed unconditional fallback refresh on
exhausted polling is false: when every fetch attempt throws (models a
store outage), all four attempts run, no persisted counterpart is found,
and the catch branch of the final attempt schedules nothing — no
fallback `loadMessages` refresh runs. -/
theorem pollerFallbackClaim_false : ¬pollerFallbackClaim := by
  intro h
  have h1 := h "r1" (fun _ => none) rfl
  exact absurd h1 (by decide)

/-- **C4, amended.** The poller schedules at most
`pollDelays.length = 4` attempts at delays 300, 600, 800, 1200 ms; the
first attempt whose successful fetch contains a message with the send's
correlation key stops the sequence with that message (no later attempt
runs, the matched entries are replaced in place); if all attempts run
without a match and the final attempt's fetch succeeded, exactly one
unconditional reconciliation refresh runs; if the final attempt's fetch
failed, polling stops without the fallback refresh. -/
theorem poller_bounded_first_match :
    pollDelays = [300, 600, 800, 1200] ∧
    (∀ (cid : String) (fetch : Nat → Option (List Message)),
      (pollForMessage cid fetch).attemptsRun ≤ pollDelays.length) ∧
    (∀ (cid : String) (fetch : Nat → Option (List Message)) (i : Nat) (p : Message),
      i < pollDelays.length → (∀ j < i, matchAt cid fetch j = none) →
      matchAt cid fetch i = some p →
      pollForMessage cid fetch = ⟨i + 1, some p, false⟩) ∧
    (∀ (cid : String) (fetch : Nat → Option (List Message)),
      (∀ j < pollDelays.length, matchAt cid fetch j = none) →
      (fetch (pollDelays.length - 1)).isSome = true →
      pollForMessage cid fetch = ⟨pollDelays.length, none, true⟩) ∧
    (∀ (cid : String) (fetch : Nat → Option (List Message)),
      (∀ j < pollDelays.length, matchAt cid fetch j = none) →
      fetch (pollDelays.length - 1) = none →
      pollForMessage cid fetch = ⟨pollDelays.length, none, false⟩) ∧
    (∀ (msgs : List Message) (cid : String) (p m : Message),
      m ∈ msgs → mkey m = cid → p ∈ replaceByKey msgs cid p) := by
  refine ⟨rfl, ?_, ?_, ?_, ?_, ?_⟩
  · intro cid fetch
    exact pollRun_attempts_le cid fetch 3 0
  · intro cid fetch i p hlt hnone hm
    have hi : i ≤ 3 := by
      have h4 : i < 4 := hlt
      omega
    have h0 := pollRun_first_match i 3 0
      (fun j _ hj => hnone j (by omega)) (by rw [Nat.zero_add]; exact hm) hi
    show pollRun cid fetch 3 0 = _
    simpa using h0
  · intro cid fetch hnone hsome
    have hlen : pollDelays.length = 4 := rfl
    have h0 := pollRun_no_match 3 0 (fun j _ hj => hnone j (by omega))
    show pollRun cid fetch 3 0 = _
    rw [hlen, h0]
    have hsome3 : (fetch (0 + 3)).isSome = true := hsome
    rw [hsome3]
  · intro cid fetch hnone herr
    have hlen : pollDelays.length = 4 := rfl
    have h0 := pollRun_no_match 3 0 (fun j _ hj => hnone j (by omega))
    show pollRun cid fetch 3 0 = _
    rw [hlen, h0]
    have herr3 : fetch (0 + 3) = none := herr
    rw [herr3]
    rfl
  · intro msgs cid p m hm hk
    exact List.mem_map.mpr ⟨m, hm, by rw [if_pos hk]⟩

/-- **C4, witness.** A fetch schedule whose second attempt returns the
persisted counterpart stops after two attempts with the replacement and
no fallback; a schedule that always returns an empty list exhausts all
four attempts and runs exactly one fallback refresh. -/
theorem poller_bounded_first_match_witness :
    pollForMessage "r1" (fun i => if i = 1 then some [persisted1] else some []) =
      ⟨2, some persisted1, false⟩ ∧
    pollForMessage "r1" (fun _ => some []) = ⟨4, none, true⟩ :=
  ⟨poller_bounded_first_match.2.2.1 "r1"
      (fun i => if i = 1 then some [persisted1] else some []) 1 persisted1
      (by decide) (by decide) (by decide),
   poller_bounded_first_match.2.2.2.1 "r1" (fun _ => some [])
      (by decide) (by decide)⟩

/-- **C6.** Poll attempts are scoped per recipient: a new send to
recipient `r` first cancels every pending poll timer previously
registered for `r` (the cancelled set is exactly the previous timer list
for `r`), leaves exactly the new send's first timer registered for `r`,
and leaves every other recipient's timers untouched. -/
theorem per_recipient_timer_replacement (t : TimerMap) (r : String)
    (firstTimer : Nat) :
    (handleSendTimers t r firstTimer).2 = t r ∧
    (handleSendTimers t r firstTimer).1 r = [firstTimer] ∧
    (∀ x, x ≠ r → (handleSendTimers t r firstTimer).1 x = t x) := by
  refine ⟨rfl, ?_, ?_⟩
  · show pushTimer (clearRecipientTimers t r).1 r firstTimer r = [firstTimer]
    unfold pushTimer clearRecipientTimers
    simp
  · intro x hx
    show pushTimer (clearRecipientTimers t r).1 r firstTimer x = t x
    unfold pushTimer clearRecipientTimers
    simp [hx]

/-- **C6, witness.** A recipient with two pending timers gets both
cancelled and only the new timer installed; another recipient's (empty)
timer list is untouched. -/
theorem per_recipient_timer_replacement_witness :
    (handleSendTimers (fun s => if s = "+1" then [7, 8] else []) "+1" 9).2 = [7, 8] ∧
    (handleSendTimers (fun s => if s = "+1" then [7, 8] else []) "+1" 9).1 "+1" = [9] ∧
    (handleSendTimers (fun s => if s = "+1" then [7, 8] else []) "+1" 9).1 "+2" = [] :=
  ⟨(per_recipient_timer_replacement (fun s => if s = "+1" then [7, 8] else []) "+1" 9).1,
   (per_recipient_timer_replacement (fun s => if s = "+1" then [7, 8] else []) "+1" 9).2.1,
   (per_recipient_timer_replacement (fun s => if s = "+1" then [7, 8] else []) "+1" 9).2.2
     "+2" (by decide)⟩


/-- **C7.** Whenever the message store lookup fails, the read handlers
answer HTTP 500 with an `INTERNAL` error payload — never an empty array
or any success body: `GetUserMessages` maps a failing
`FindByPhoneNumber` to 500, `GetConversations` maps a failing
`GetDistinctPhoneNumbers` to 500, and an error response is never equal
to a message-list response. -/
theorem store_error_maps_to_500 :
    (∀ (path : String) (find : String → Except String (List Message)) (err : String),
      pathShapeOK path = true → extractPhone path ≠ "" →
      strContains (extractPhone path) '/' = false →
      find (extractPhone path) = Except.error err →
      getUserMessagesHandler path find =
        writeError 500 "INTERNAL" "could not retrieve messages") ∧
    (∀ err : String, getConversationsHandler (Except.error err) =
      writeError 500 "INTERNAL" "could not retrieve conversations") ∧
    (∀ (c msg : String) (s : Nat) (l : List Message),
      writeError 500 c msg ≠ ⟨s, Body.msgs l⟩) := by
  refine ⟨?_, ?_, ?_⟩
  · intro path find err h1 h2 h3 h4
    simp [getUserMessagesHandler, h1, h2, h3, h4]
  · intro err
    rfl
  · intro c msg s l
    simp [writeError]

/-- **C7, witness.** A failing store on a well-formed path yields the
500 responses. -/
theorem store_error_maps_to_500_witness :
    getUserMessagesHandler "/v1/user/123/messages" (fun _ => Except.error "down") =
      writeError 500 "INTERNAL" "could not retrieve messages" ∧
    getConversationsHandler (Except.error "down") =
      writeError 500 "INTERNAL" "could not retrieve conversations" ∧
    writeError 500 "INTERNAL" "could not retrieve messages" ≠
      ⟨200, Body.msgs []⟩ :=
  ⟨store_error_maps_to_500.1 "/v1/user/123/messages" (fun _ => Except.error "down")
      "down" (by decide) (by decide) (by decide) rfl,
   store_error_maps_to_500.2.1 "down",
   store_error_maps_to_500.2.2 "INTERNAL" "could not retrieve messages" 200 []⟩

/-- **C8.** On the per-recipient message endpoints, an extracted
recipient that is empty or contains a path separator is rejected with
400 `BAD_REQUEST` by both `GetUserMessages` and `DeleteUserMessages`
whatever the store would answer (the store is never consulted: the
response is the same for every store function); a well-formed recipient
with no stored messages yields HTTP 200 with an empty array. -/
theorem recipient_validation_and_empty_ok :
    (∀ (path : String) (find : String → Except String (List Message)),
      pathShapeOK path = true →
      (extractPhone path = "" ∨ strContains (extractPhone path) '/' = true) →
      getUserMessagesHandler path find =
        writeError 400 "BAD_REQUEST" "invalid phoneNumber") ∧
    (∀ (path : String) (del : String → Except String Nat),
      pathShapeOK path = true →
      (extractPhone path = "" ∨ strContains (extractPhone path) '/' = true) →
      deleteUserMessagesHandler path del =
        writeError 400 "BAD_REQUEST" "invalid phoneNumber") ∧
    (∀ (path : String) (find : String → Except String (List Message)),
      pathShapeOK path = true → extractPhone path ≠ "" →
      strContains (extractPhone path) '/' = false →
      find (extractPhone path) = Except.ok [] →
      getUserMessagesHandler path find = ⟨200, Body.msgs []⟩) := by
  refine ⟨?_, ?_, ?_⟩
  · intro path find h1 h2
    simp [getUserMessagesHandler, h1, h2]
  · intro path del h1 h2
    simp [deleteUserMessagesHandler, h1, h2]
  · intro path find h1 h2 h3 h4
    simp [getUserMessagesHandler, h1, h2, h3, h4]

/-- **C8, witness.** An empty recipient (`/v1/user//messages`) and a
separator-containing recipient (`/v1/user/a/b/messages`) are rejected
for any store behaviour; a well-formed recipient with an empty store
result yields 200 with `[]`. -/
theorem recipient_validation_and_empty_ok_witness :
    getUserMessagesHandler "/v1/user//messages" (fun _ => Except.ok [persisted1]) =
      writeError 400 "BAD_REQUEST" "invalid phoneNumber" ∧
    deleteUserMessagesHandler "/v1/user/a/b/messages" (fun _ => Except.ok 3) =
      writeError 400 "BAD_REQUEST" "invalid phoneNumber" ∧
    getUserMessagesHandler "/v1/user/123/messages" (fun _ => Except.ok []) =
      ⟨200, Body.msgs []⟩ :=
  ⟨recipient_validation_and_empty_ok.1 "/v1/user//messages"
      (fun _ => Except.ok [persisted1]) (by decide) (by decide),
   recipient_validation_and_empty_ok.2.1 "/v1/user/a/b/messages"
      (fun _ => Except.ok 3) (by decide) (by decide),
   recipient_validation_and_empty_ok.2.2 "/v1/user/123/messages"
      (fun _ => Except.ok []) (by decide) (by decide) (by decide) rfl⟩

/-- **C9.** The send entry point synchronously returns
`{requestId, status, timestamp}`; the optimistic message fabricated by
`handleSend` from that response has the returned `requestId` as its
correlation key, and any persisted message located by the poller's
correlation match has that same key — the returned identifier is the
join key between the optimistic and persisted representations. -/
theorem send_response_is_join_key (req : SendSmsRequest) (rid st : String)
    (now msgNow : Int) (phone text : String) :
    sendEntryPoint req rid st now = ⟨rid, st, now⟩ ∧
    mkey (mkOptimisticMessage (sendEntryPoint req rid st now) phone text msgNow) = rid ∧
    (∀ (data : List Message) (p : Message),
      data.find? (fun m => mkey m = (sendEntryPoint req rid st now).requestId) = some p →
      mkey p = rid) := by
  refine ⟨rfl, ?_, ?_⟩
  · simp [mkOptimisticMessage, mkey, sendEntryPoint]
  · intro data p hp
    have h := List.find?_some hp
    exact of_decide_eq_true h

/-- **C9, witness.** A concrete send response joined against a persisted
list containing its counterpart. -/
theorem send_response_is_join_key_witness :
    sendEntryPoint ⟨"+1", "hi"⟩ "r1" "RECEIVED" 111 = ⟨"r1", "RECEIVED", 111⟩ ∧
    mkey (mkOptimisticMessage (sendEntryPoint ⟨"+1", "hi"⟩ "r1" "RECEIVED" 111)
      "+1" "hi" 222) = "r1" ∧
    mkey persisted1 = "r1" :=
  ⟨(send_response_is_join_key ⟨"+1", "hi"⟩ "r1" "RECEIVED" 111 222 "+1" "hi").1,
   (send_response_is_join_key ⟨"+1", "hi"⟩ "r1" "RECEIVED" 111 222 "+1" "hi").2.1,
   (send_response_is_join_key ⟨"+1", "hi"⟩ "r1" "RECEIVED" 111 222 "+1" "hi").2.2
      [persisted1] persisted1 (by decide)⟩

/-- **C10.** `storeApiClient.getUserMessages` resolves with `[]` for
every HTTP error response (status ≥ 400) — both the explicit 404/400
branch and the catch-all branch return `[]` — and it rejects exactly
when no HTTP response was received at all. -/
theorem client_http_error_resolves_empty :
    (∀ (nowIso : String) (s : Nat), 400 ≤ s →
      clientGetUserMessages nowIso (AxiosResult.httpError s) = Except.ok []) ∧
    (∀ (nowIso : String) (r : AxiosResult (List ApiMessage)),
      (∃ msg, clientGetUserMessages nowIso r = Except.error msg) ↔
        r = AxiosResult.networkError) := by
  constructor
  · intro nowIso s _
    exact ite_self _
  · intro nowIso r
    cases r with
    | success data =>
      simp [clientGetUserMessages]
    | httpError s =>
      constructor
      · rintro ⟨msg, hmsg⟩
        have h2 : (if s = 404 ∨ s = 400 then
            (Except.ok [] : Except String (List ApiMessage)) else Except.ok []) =
            Except.error msg := hmsg
        rw [ite_self] at h2
        exact Except.noConfusion h2
      · intro h
        exact AxiosResult.noConfusion h
    | networkError =>
      exact ⟨fun _ => rfl, fun _ => ⟨_, rfl⟩⟩

/-- **C10, witness.** A 500 response resolves to `[]`; a network error
rejects. -/
theorem client_http_error_resolves_empty_witness :
    clientGetUserMessages "t0" (AxiosResult.httpError 500) = Except.ok [] ∧
    (∃ msg, clientGetUserMessages "t0"
      (AxiosResult.networkError : AxiosResult (List ApiMessage)) = Except.error msg) :=
  ⟨client_http_error_resolves_empty.1 "t0" 500 (by decide),
   (client_http_error_resolves_empty.2 "t0" AxiosResult.networkError).mpr rfl⟩

end SMSSystem
